import Mathlib

/-
Verification of the imbl-indexed library: an immutable, insertion-ordered
map (src/map.rs) and a set wrapper (src/set.rs). The map composes a hash
index (imbl::GenericHashMap from hash code to slot position) with a slot
sequence (imbl::GenericVector of optional buckets); tombstones are slots
holding None. We embed both structures shallowly: the hash index as a
function from hash codes to optional positions, the slot sequence as a
list of optional buckets, and the hash builder as a function from keys to
hash codes (modelling hash_builder.hash_one).
-/

set_option linter.unusedVariables false
set_option linter.unusedSectionVars false

namespace ImblIndexed

/-- Hash codes: the Rust HashValue wraps a usize and compares by the
wrapped number, so hash codes are modelled as natural numbers. -/
abbrev HashValue := Nat

/-- One slot payload, as in the Rust Bucket struct: one key and one value. -/
structure Bucket (K V : Type) where
  key : K
  value : V
deriving DecidableEq

/-- The hash index, imbl::GenericHashMap from HashValue to usize: a finite
map from hash code to slot position, modelled extensionally. -/
def Indices : Type := HashValue → Option Nat

/-- An empty hash index. -/
def Indices.empty : Indices := fun _ => none

/-- Rust: indices.get(h). -/
def Indices.get (f : Indices) (h : HashValue) : Option Nat := f h

/-- Rust: indices.insert(h, i) and indices.update(h, i), insert-or-replace. -/
def Indices.update (f : Indices) (h : HashValue) (i : Nat) : Indices :=
  fun x => if x = h then some i else f x

/-- Rust: indices.without(h) and indices.remove(h), key deletion. -/
def Indices.without (f : Indices) (h : HashValue) : Indices :=
  fun x => if x = h then none else f x

@[simp]
theorem Indices.get_empty (h : HashValue) : Indices.get Indices.empty h = none := rfl

@[simp]
theorem Indices.get_update (f : Indices) (h h2 : HashValue) (i : Nat) :
    Indices.get (Indices.update f h i) h2 = if h2 = h then some i else Indices.get f h2 := rfl

@[simp]
theorem Indices.get_without (f : Indices) (h h2 : HashValue) :
    Indices.get (Indices.without f h) h2 = if h2 = h then none else Indices.get f h2 := rfl

/-- The map aggregate from src/map.rs: hash index, slot sequence, and hash
strategy (the field hash_builder models hash_builder.hash_one as a plain
function from keys to hash codes). -/
structure IndexMap (K V : Type) where
  indices : Indices
  entries : List (Option (Bucket K V))
  hash_builder : K → HashValue

namespace IndexMap

variable {K V : Type} [DecidableEq K]

/-- Rust: IndexMap::with_hasher, the empty map with a given hash strategy;
new() is with_hasher(Default::default()). -/
def with_hasher (hf : K → HashValue) : IndexMap K V :=
  { indices := Indices.empty, entries := [], hash_builder := hf }

/-- Rust: self.hash(key) = hash_builder.hash_one(key). -/
def hash (m : IndexMap K V) (k : K) : HashValue := m.hash_builder k

/-- Rust: self.len() = self.entries.len(), the slot-sequence length,
tombstones included. -/
def len (m : IndexMap K V) : Nat := m.entries.length

/-- Rust: self.is_empty() = self.entries.is_empty(). -/
def is_empty (m : IndexMap K V) : Bool := m.entries.isEmpty

/-- Rust: self.iter(), walking the slot sequence in position order and
skipping tombstones (entries.iter().flatten() yielding key-value pairs). -/
def iter (m : IndexMap K V) : List (K × V) :=
  m.entries.filterMap (fun o => o.map (fun b => (b.key, b.value)))

/-- Keys in iteration order. -/
def keysList (m : IndexMap K V) : List K := (iter m).map Prod.fst

/-- The lookup chain shared by get and contains_key, mirroring the Rust
combinators: probe the index with the key hash, fetch the slot, drop
tombstones (as_ref on the optional bucket), and re-check that the stored
key structurally equals the probe key. -/
def lookupBucket (m : IndexMap K V) (k : K) : Option (Bucket K V) :=
  (((Indices.get m.indices (m.hash k)).bind (fun idx => m.entries[idx]?)).join).filter
    (fun b => b.key == k)

/-- Rust: IndexMap::get, returning the bucket value on a validated hit. -/
def get (m : IndexMap K V) (k : K) : Option V :=
  (lookupBucket m k).map (fun b => b.value)

/-- Rust: IndexMap::contains_key, is_some of the same lookup chain. -/
def contains_key (m : IndexMap K V) (k : K) : Bool :=
  (lookupBucket m k).isSome

/-- Rust: IndexMap::update (functional). On an index hit, replace the
bucket at the stored slot (index untouched); on a miss, append a slot and
record (hash, new position) in the index. -/
def update (m : IndexMap K V) (k : K) (v : V) : IndexMap K V :=
  match Indices.get m.indices (m.hash k) with
  | some idx => { m with entries := m.entries.set idx (some { key := k, value := v }) }
  | none =>
    { m with
      indices := Indices.update m.indices (m.hash k) m.entries.length,
      entries := m.entries ++ [some { key := k, value := v }] }

/-- Rust: IndexMap::insert (mutating), same branch logic as update,
performed in place; modelled in state-passing style. -/
def insert (m : IndexMap K V) (k : K) (v : V) : IndexMap K V :=
  match Indices.get m.indices (m.hash k) with
  | some idx => { m with entries := m.entries.set idx (some { key := k, value := v }) }
  | none =>
    { m with
      indices := Indices.update m.indices (m.hash k) m.entries.length,
      entries := m.entries ++ [some { key := k, value := v }] }

/-- Rust: IndexMap::without (functional removal). On an index hit, delete
the hash from the index and tombstone the slot (position retained); on a
miss, return a clone of the receiver. -/
def without (m : IndexMap K V) (k : K) : IndexMap K V :=
  match Indices.get m.indices (m.hash k) with
  | some idx =>
    { m with
      indices := Indices.without m.indices (m.hash k),
      entries := m.entries.set idx none }
  | none => m

/-- Rust: IndexMap::remove (mutating removal). On an index hit, delete the
hash from the index and physically delete the slot, shifting every later
slot down by one; on a miss, do nothing. Modelled in state-passing style. -/
def remove (m : IndexMap K V) (k : K) : IndexMap K V :=
  match Indices.get m.indices (m.hash k) with
  | some idx =>
    { m with
      indices := Indices.without m.indices (m.hash k),
      entries := m.entries.eraseIdx idx }
  | none => m

/-- Rust: PartialEq::eq for IndexMap: equal len() and every iterated pair
of the left map resolves in the right map to an equal value. -/
def eq [DecidableEq V] (m1 m2 : IndexMap K V) : Bool :=
  (m1.len == m2.len) && (iter m1).all (fun kv => get m2 kv.1 == some kv.2)

/-- Invariant I1 of the spec: every (hash, slot) pair in the index points
at a Present bucket whose key hashes to that code. -/
def I1 (m : IndexMap K V) : Prop :=
  ∀ h idx, Indices.get m.indices h = some idx →
    ∃ b, m.entries[idx]? = some (some b) ∧ m.hash_builder b.key = h

/-- Every slot position stored in the index is inside the slot sequence;
this is the part of invariant I1 that keeps the underlying vector
operations (which panic out of bounds in imbl) total. -/
def InBounds (m : IndexMap K V) : Prop :=
  ∀ h idx, Indices.get m.indices h = some idx → idx < m.entries.length

/-- Live (non-tombstone) size. This definition follows the wording of the
spec sentence on equality (equal live size); the source PartialEq uses
len(), which counts all slots. -/
def liveSize (m : IndexMap K V) : Nat := (iter m).length

end IndexMap

/-- The set wrapper from src/set.rs: an IndexMap with unit values. -/
structure IndexSet (T : Type) where
  map : IndexMap T Unit

namespace IndexSet

variable {T : Type} [DecidableEq T]

/-- Rust: IndexSet::with_hasher; new() is with_hasher(Default::default()). -/
def with_hasher (hf : T → HashValue) : IndexSet T :=
  { map := IndexMap.with_hasher hf }

/-- Rust: IndexSet::iter, yielding keys only. -/
def iter (s : IndexSet T) : List T := (IndexMap.iter s.map).map Prod.fst

/-- Rust: IndexSet::contains = map.contains_key. -/
def contains (s : IndexSet T) (t : T) : Bool := IndexMap.contains_key s.map t

/-- Rust: IndexSet::len = map.len(). -/
def len (s : IndexSet T) : Nat := IndexMap.len s.map

/-- Rust: IndexSet::insert = map.update(item, ()). -/
def insert (s : IndexSet T) (t : T) : IndexSet T :=
  { map := IndexMap.update s.map t () }

/-- Rust: IndexSet::without = map.without(item). -/
def without (s : IndexSet T) (t : T) : IndexSet T :=
  { map := IndexMap.without s.map t }

/-- The Iterator impl on a shared reference to an IndexSet: next() builds
a fresh self.iter() each call and returns its first element, leaving the
borrowed set (the whole iterator state) unchanged. -/
def refNext (s : IndexSet T) : Option T × IndexSet T := ((iter s).head?, s)

/-- Calling next() n+1 times on the shared-reference iterator and keeping
the last output. -/
def refNextRun : Nat → IndexSet T → Option T
  | 0, s => (refNext s).1
  | n + 1, s => refNextRun n (refNext s).2

end IndexSet

/-- A store of live snapshots: functional operations read one snapshot and
append the new aggregate, modelling that they return an independently
owned value. Reading snapshot i and functionally updating it appends
update of that snapshot; a bad index leaves the store unchanged. -/
def snapUpdate {K V : Type} [DecidableEq K] (store : List (IndexMap K V))
    (i : Nat) (k : K) (v : V) : List (IndexMap K V) :=
  match store[i]? with
  | some m => store ++ [IndexMap.update m k v]
  | none => store

/-- Snapshot-store step for functional removal, as in snapUpdate. -/
def snapWithout {K V : Type} [DecidableEq K] (store : List (IndexMap K V))
    (i : Nat) (k : K) : List (IndexMap K V) :=
  match store[i]? with
  | some m => store ++ [IndexMap.without m k]
  | none => store

/- List helper lemmas about get?, set, append and eraseIdx, proved here by
induction so the development is self-contained. -/

theorem lget_lt {α : Type} : ∀ (l : List α) (i : Nat) (a : α),
    l[i]? = some a → i < l.length := by
  intro l
  induction l with
  | nil => intro i a h; simp at h
  | cons x t ih =>
    intro i a h
    cases i with
    | zero => simp
    | succ n =>
      rw [List.getElem?_cons_succ] at h
      exact Nat.succ_lt_succ (ih n a h)

theorem lget_set_self {α : Type} : ∀ (l : List α) (i : Nat) (a : α),
    i < l.length → (l.set i a)[i]? = some a := by
  intro l
  induction l with
  | nil => intro i a h; simp at h
  | cons x t ih =>
    intro i a h
    cases i with
    | zero => rw [List.set_cons_zero, List.getElem?_cons_zero]
    | succ n =>
      rw [List.set_cons_succ, List.getElem?_cons_succ]
      exact ih n a (Nat.lt_of_succ_lt_succ h)

theorem lget_set_ne {α : Type} : ∀ (l : List α) (i j : Nat) (a : α),
    i ≠ j → (l.set i a)[j]? = l[j]? := by
  intro l
  induction l with
  | nil => intro i j a h; rfl
  | cons x t ih =>
    intro i j a h
    cases i with
    | zero =>
      cases j with
      | zero => exact absurd rfl h
      | succ n => rw [List.set_cons_zero, List.getElem?_cons_succ, List.getElem?_cons_succ]
    | succ n =>
      cases j with
      | zero => rw [List.set_cons_succ, List.getElem?_cons_zero, List.getElem?_cons_zero]
      | succ n2 =>
        rw [List.set_cons_succ, List.getElem?_cons_succ, List.getElem?_cons_succ]
        exact ih n n2 a (fun hc => h (congrArg Nat.succ hc))

theorem lget_append_left {α : Type} : ∀ (l l2 : List α) (j : Nat),
    j < l.length → (l ++ l2)[j]? = l[j]? := by
  intro l
  induction l with
  | nil => intro l2 j h; simp at h
  | cons x t ih =>
    intro l2 j h
    cases j with
    | zero => rw [List.cons_append, List.getElem?_cons_zero, List.getElem?_cons_zero]
    | succ n =>
      rw [List.cons_append, List.getElem?_cons_succ, List.getElem?_cons_succ]
      exact ih l2 n (Nat.lt_of_succ_lt_succ h)

theorem lget_append_len {α : Type} : ∀ (l : List α) (a : α),
    (l ++ [a])[l.length]? = some a := by
  intro l
  induction l with
  | nil => intro a; rfl
  | cons x t ih =>
    intro a
    rw [List.cons_append, List.length_cons, List.getElem?_cons_succ]
    exact ih a

namespace IndexMap

variable {K V : Type} [DecidableEq K]

theorem update_hit {m : IndexMap K V} {k : K} {idx : Nat} (v : V)
    (h : Indices.get m.indices (m.hash k) = some idx) :
    update m k v = { m with entries := m.entries.set idx (some { key := k, value := v }) } := by
  unfold update
  rw [h]

theorem update_miss {m : IndexMap K V} {k : K} (v : V)
    (h : Indices.get m.indices (m.hash k) = none) :
    update m k v =
      { m with
        indices := Indices.update m.indices (m.hash k) m.entries.length,
        entries := m.entries ++ [some { key := k, value := v }] } := by
  unfold update
  rw [h]

theorem insert_hit {m : IndexMap K V} {k : K} {idx : Nat} (v : V)
    (h : Indices.get m.indices (m.hash k) = some idx) :
    insert m k v = { m with entries := m.entries.set idx (some { key := k, value := v }) } := by
  unfold insert
  rw [h]

theorem insert_miss {m : IndexMap K V} {k : K} (v : V)
    (h : Indices.get m.indices (m.hash k) = none) :
    insert m k v =
      { m with
        indices := Indices.update m.indices (m.hash k) m.entries.length,
        entries := m.entries ++ [some { key := k, value := v }] } := by
  unfold insert
  rw [h]

theorem without_hit {m : IndexMap K V} {k : K} {idx : Nat}
    (h : Indices.get m.indices (m.hash k) = some idx) :
    without m k =
      { m with
        indices := Indices.without m.indices (m.hash k),
        entries := m.entries.set idx none } := by
  unfold without
  rw [h]

theorem without_miss {m : IndexMap K V} {k : K}
    (h : Indices.get m.indices (m.hash k) = none) :
    without m k = m := by
  unfold without
  rw [h]

theorem remove_hit {m : IndexMap K V} {k : K} {idx : Nat}
    (h : Indices.get m.indices (m.hash k) = some idx) :
    remove m k =
      { m with
        indices := Indices.without m.indices (m.hash k),
        entries := m.entries.eraseIdx idx } := by
  unfold remove
  rw [h]

theorem remove_miss {m : IndexMap K V} {k : K}
    (h : Indices.get m.indices (m.hash k) = none) :
    remove m k = m := by
  unfold remove
  rw [h]

theorem lookupBucket_eq_some {m : IndexMap K V} {k : K} {b : Bucket K V}
    (hl : lookupBucket m k = some b) :
    ∃ idx, Indices.get m.indices (m.hash k) = some idx ∧
      m.entries[idx]? = some (some b) ∧ b.key = k := by
  rw [lookupBucket, Option.filter_eq_some] at hl
  obtain ⟨hmem, hkey⟩ := hl
  rw [Option.mem_def, Option.join_eq_some, Option.bind_eq_some] at hmem
  obtain ⟨idx, hidx, hent⟩ := hmem
  exact ⟨idx, hidx, hent, by simpa using hkey⟩

theorem contains_key_eq_true {m : IndexMap K V} {k : K}
    (hc : contains_key m k = true) :
    ∃ idx b, Indices.get m.indices (m.hash k) = some idx ∧
      m.entries[idx]? = some (some b) ∧ b.key = k := by
  rw [contains_key, Option.isSome_iff_exists] at hc
  obtain ⟨b, hb⟩ := hc
  obtain ⟨idx, h1, h2, h3⟩ := lookupBucket_eq_some hb
  exact ⟨idx, b, h1, h2, h3⟩

end IndexMap

/-- C4: lookup fails closed: whenever the index maps the probe key hash to
a slot that is missing, a tombstone, or holds a key not structurally equal
to the probe key, get returns none and contains_key returns false; and get
only ever returns values stored in a present bucket whose key equals the
probe key. -/
theorem C4_lookup_fails_closed :
    (∀ (K V : Type) [DecidableEq K] (m : IndexMap K V) (k : K),
      (∀ idx b, Indices.get m.indices (m.hash k) = some idx →
        m.entries[idx]? = some (some b) → b.key ≠ k) →
      IndexMap.get m k = none ∧ IndexMap.contains_key m k = false) ∧
    (∀ (K V : Type) [DecidableEq K] (m : IndexMap K V) (k : K) (v : V),
      IndexMap.get m k = some v →
      ∃ idx b, Indices.get m.indices (m.hash k) = some idx ∧
        m.entries[idx]? = some (some b) ∧ b.key = k ∧ b.value = v) := by
  constructor
  · intro K V _ m k hmis
    have hnone : IndexMap.lookupBucket m k = none := by
      cases hl : IndexMap.lookupBucket m k with
      | none => rfl
      | some b =>
        obtain ⟨idx, h1, h2, h3⟩ := IndexMap.lookupBucket_eq_some hl
        exact absurd h3 (hmis idx b h1 h2)
    exact ⟨by simp [IndexMap.get, hnone], by simp [IndexMap.contains_key, hnone]⟩
  · intro K V _ m k v hg
    rw [IndexMap.get] at hg
    cases hl : IndexMap.lookupBucket m k with
    | none => rw [hl] at hg; simp at hg
    | some b =>
      rw [hl] at hg
      simp only [Option.map_some', Option.some.injEq] at hg
      obtain ⟨idx, h1, h2, h3⟩ := IndexMap.lookupBucket_eq_some hl
      exact ⟨idx, b, h1, h2, h3, hg⟩

/-- A state whose index maps hash 0 to slot 0 while slot 0 is a tombstone;
used to exercise the fail-closed lookup. -/
def mismatchStateC4 : IndexMap Nat Nat :=
  { indices := Indices.update Indices.empty 0 0, entries := [none], hash_builder := fun n => n }

/-- Witness for C4: on a concrete tombstone-pointing index entry, lookup
reports absent. -/
theorem C4_lookup_fails_closed_witness :
    IndexMap.get mismatchStateC4 0 = none ∧ IndexMap.contains_key mismatchStateC4 0 = false :=
  C4_lookup_fails_closed.1 Nat Nat mismatchStateC4 0 (by
    intro idx b h1 h2
    have hidx : idx = 0 := by
      have := h1.symm
      simpa [mismatchStateC4, IndexMap.hash, Indices.get, Indices.update] using this
    subst hidx
    simp [mismatchStateC4] at h2)

namespace IndexMap

variable {K V : Type} [DecidableEq K]

theorem lookupBucket_intro {m : IndexMap K V} {k : K} {idx : Nat} {b : Bucket K V}
    (h1 : Indices.get m.indices (m.hash k) = some idx)
    (h2 : m.entries[idx]? = some (some b)) (h3 : b.key = k) :
    lookupBucket m k = some b := by
  rw [lookupBucket, h1, Option.some_bind, h2]
  simp [Option.join, h3]

theorem lookupBucket_none_of_miss {m : IndexMap K V} {k : K}
    (h1 : Indices.get m.indices (m.hash k) = none) :
    lookupBucket m k = none := by
  rw [lookupBucket, h1, Option.none_bind]
  rfl

theorem lookupBucket_update_self (m : IndexMap K V) (k : K) (v : V) (hwf : InBounds m) :
    lookupBucket (update m k v) k = some { key := k, value := v } := by
  cases hidx : Indices.get m.indices (m.hash k) with
  | some idx =>
    have hlt : idx < m.entries.length := hwf _ _ hidx
    rw [update_hit v hidx]
    exact lookupBucket_intro
      (m := { m with entries := m.entries.set idx (some { key := k, value := v }) })
      hidx (lget_set_self _ _ _ hlt) rfl
  | none =>
    rw [update_miss v hidx]
    exact lookupBucket_intro
      (m := { m with
              indices := Indices.update m.indices (m.hash k) m.entries.length,
              entries := m.entries ++ [some { key := k, value := v }] })
      (by simp [IndexMap.hash]) (lget_append_len _ _) rfl

theorem get_update_self (m : IndexMap K V) (k : K) (v : V) (hwf : InBounds m) :
    get (update m k v) k = some v := by
  rw [get, lookupBucket_update_self m k v hwf]
  rfl

theorem inBounds_update (m : IndexMap K V) (k : K) (v : V) (hwf : InBounds m) :
    InBounds (update m k v) := by
  cases hidx : Indices.get m.indices (m.hash k) with
  | some idx =>
    rw [update_hit v hidx]
    intro h i hi
    simp only [List.length_set]
    exact hwf h i hi
  | none =>
    rw [update_miss v hidx]
    intro h i hi
    simp only [Indices.get_update] at hi
    by_cases hh : h = m.hash k
    · rw [if_pos hh] at hi
      obtain rfl : i = m.entries.length := by simpa using hi.symm
      simp
    · rw [if_neg hh] at hi
      have := hwf h i hi
      simp only [List.length_append, List.length_cons, List.length_nil]
      omega

end IndexMap

/-- C7: overwrite semantics: updating the same key twice yields the second
value on lookup, and the double update has the same size as the single
update; stated for states whose index positions are inside the slot
sequence (so the underlying vector writes are in bounds, as they are for
every state the public constructors and functional operations produce). -/
theorem C7_overwrite_semantics (K V : Type) [DecidableEq K]
    (m : IndexMap K V) (k : K) (v1 v2 : V) (hwf : IndexMap.InBounds m) :
    IndexMap.get (IndexMap.update (IndexMap.update m k v1) k v2) k = some v2 ∧
    IndexMap.len (IndexMap.update (IndexMap.update m k v1) k v2) =
      IndexMap.len (IndexMap.update m k v2) := by
  refine ⟨IndexMap.get_update_self _ _ _ (IndexMap.inBounds_update m k v1 hwf), ?_⟩
  cases hidx : Indices.get m.indices (m.hash k) with
  | some idx =>
    rw [IndexMap.update_hit v1 hidx,
      IndexMap.update_hit (m := { m with entries := m.entries.set idx (some { key := k, value := v1 }) }) v2 hidx,
      IndexMap.update_hit (m := m) v2 hidx]
    simp [IndexMap.len]
  | none =>
    rw [IndexMap.update_miss v1 hidx]
    have hidx2 : Indices.get (Indices.update m.indices (m.hash k) m.entries.length) (m.hash k)
        = some m.entries.length := by simp
    rw [IndexMap.update_hit (m := { m with
          indices := Indices.update m.indices (m.hash k) m.entries.length,
          entries := m.entries ++ [some { key := k, value := v1 }] }) v2 hidx2,
      IndexMap.update_miss (m := m) v2 hidx]
    simp [IndexMap.len]

/-- The empty map over natural keys with the identity hash strategy. -/
def emptyNatMap : IndexMap Nat Nat := IndexMap.with_hasher (fun n => n)

/-- Witness for C7 at a concrete map. -/
theorem C7_overwrite_semantics_witness :
    IndexMap.get (IndexMap.update (IndexMap.update emptyNatMap 0 1) 0 2) 0 = some 2 ∧
    IndexMap.len (IndexMap.update (IndexMap.update emptyNatMap 0 1) 0 2) =
      IndexMap.len (IndexMap.update emptyNatMap 0 2) :=
  C7_overwrite_semantics Nat Nat emptyNatMap 0 1 2 (by
    intro h idx hx
    simp [emptyNatMap, IndexMap.with_hasher, Indices.get, Indices.empty] at hx)

/-- C8 (amended): removal of a key whose hash is not tracked by the index
is a defined no-op: without returns the receiver (a clone of it in Rust),
remove leaves the receiver unchanged, and such a key is never contained.
The original claim, conditioned only on the key not being contained,
fails: a colliding or stale index entry for the key hash makes without
and remove modify the map (see the counterexample). -/
theorem C8_untracked_hash_removal_noop (K V : Type) [DecidableEq K]
    (m : IndexMap K V) (k : K)
    (h : Indices.get m.indices (m.hash k) = none) :
    IndexMap.without m k = m ∧ IndexMap.remove m k = m ∧
    IndexMap.contains_key m k = false := by
  refine ⟨IndexMap.without_miss h, IndexMap.remove_miss h, ?_⟩
  rw [IndexMap.contains_key, IndexMap.lookupBucket_none_of_miss h]
  rfl

/-- A map holding key 0 under a constant hash strategy, so probing any
other key hits the same index entry. -/
def collideC8 : IndexMap Nat Nat := IndexMap.update (IndexMap.with_hasher (fun _ => 0)) 0 5

/-- Counterexample for C8 as stated: key 1 is not contained in the map,
yet remove(1) shrinks the map (it deletes the slot of key 0) and the
result of without(1) is not content-equal to the receiver. -/
theorem C8_removal_missing_key_cex :
    IndexMap.contains_key collideC8 1 = false ∧
    IndexMap.len collideC8 = 1 ∧
    IndexMap.len (IndexMap.remove collideC8 1) = 0 ∧
    IndexMap.eq collideC8 (IndexMap.without collideC8 1) = false :=
  ⟨rfl, rfl, rfl, rfl⟩

/-- The empty map over natural keys for the C8 witness. -/
def emptyNatMapW8 : IndexMap Nat Nat := IndexMap.with_hasher (fun n => n)

/-- Witness for the amended C8 at a concrete empty map. -/
theorem C8_untracked_hash_removal_noop_witness :
    IndexMap.without emptyNatMapW8 7 = emptyNatMapW8 ∧
    IndexMap.remove emptyNatMapW8 7 = emptyNatMapW8 ∧
    IndexMap.contains_key emptyNatMapW8 7 = false :=
  C8_untracked_hash_removal_noop Nat Nat emptyNatMapW8 7 rfl

/-- A two-slot base map: key 1 live, used to exhibit a drained map whose
len stays positive. -/
def drainedBase : IndexMap Nat Nat := IndexMap.update (IndexMap.with_hasher (fun n => n)) 1 10

/-- C9: len counts all slots including tombstones: removing a contained
key with without leaves len unchanged; concretely, a one-key map drained
by without still reports is_empty = false and len = 1 while iterating
nothing. -/
theorem C9_len_counts_tombstones :
    (∀ (K V : Type) [DecidableEq K] (m : IndexMap K V) (k : K),
      IndexMap.contains_key m k = true →
      IndexMap.len (IndexMap.without m k) = IndexMap.len m) ∧
    (IndexMap.is_empty (IndexMap.without drainedBase 1) = false ∧
     IndexMap.len (IndexMap.without drainedBase 1) = 1 ∧
     IndexMap.iter (IndexMap.without drainedBase 1) = []) := by
  constructor
  · intro K V _ m k hc
    obtain ⟨idx, b, h1, h2, h3⟩ := IndexMap.contains_key_eq_true hc
    rw [IndexMap.without_hit h1]
    simp [IndexMap.len]
  · exact ⟨rfl, rfl, rfl⟩

/-- A concrete one-key map for the C9 witness. -/
def mW9 : IndexMap Nat Nat := IndexMap.update (IndexMap.with_hasher (fun n => n)) 2 3

/-- Witness for C9 at a concrete map containing its key. -/
theorem C9_len_counts_tombstones_witness :
    IndexMap.len (IndexMap.without mW9 2) = IndexMap.len mW9 :=
  C9_len_counts_tombstones.1 Nat Nat mW9 2 rfl

/-- C5: persistence of functional writes: in a store of live snapshots,
update and without read their receiver and append a fresh aggregate;
every pre-existing snapshot (hence every observable computed from it:
get, contains_key, iteration) is left unchanged. -/
theorem C5_functional_ops_preserve_snapshots (K V : Type) [DecidableEq K]
    (store : List (IndexMap K V)) (i : Nat) (k : K) (v : V) (j : Nat)
    (hj : j < store.length) :
    (snapUpdate store i k v)[j]? = store[j]? ∧
    (snapWithout store i k)[j]? = store[j]? := by
  constructor
  · unfold snapUpdate
    cases h : store[i]? with
    | none => rfl
    | some m => exact lget_append_left _ _ _ hj
  · unfold snapWithout
    cases h : store[i]? with
    | none => rfl
    | some m => exact lget_append_left _ _ _ hj

/-- A concrete one-snapshot store for the C5 witness. -/
def storeC5 : List (IndexMap Nat Nat) := [IndexMap.with_hasher (fun n => n)]

/-- Witness for C5 at a concrete store. -/
theorem C5_functional_ops_preserve_snapshots_witness :
    (snapUpdate storeC5 0 1 2)[0]? = storeC5[0]? ∧
    (snapWithout storeC5 0 1)[0]? = storeC5[0]? :=
  C5_functional_ops_preserve_snapshots Nat Nat storeC5 0 1 2 0 (by decide)

/-- C10: the Iterator impl on a shared reference to an IndexSet never
advances: its state (the borrowed set) is unchanged by next, and every
call returns the first element of the set in insertion order. -/
theorem C10_ref_iterator_never_advances (T : Type) [DecidableEq T]
    (s : IndexSet T) (n : Nat) (x : T)
    (hx : (IndexSet.iter s).head? = some x) :
    (IndexSet.refNext s).2 = s ∧ IndexSet.refNextRun n s = some x := by
  refine ⟨rfl, ?_⟩
  induction n with
  | zero => simpa [IndexSet.refNextRun, IndexSet.refNext] using hx
  | succ n ih => simpa [IndexSet.refNextRun, IndexSet.refNext] using ih

/-- A concrete one-element set for the C10 witness. -/
def setC10 : IndexSet Nat := IndexSet.insert (IndexSet.with_hasher (fun n => n)) 5

/-- Witness for C10: the third call to next on the shared-reference
iterator still returns the first element. -/
theorem C10_ref_iterator_never_advances_witness :
    (IndexSet.refNext setC10).2 = setC10 ∧ IndexSet.refNextRun 2 setC10 = some 5 :=
  C10_ref_iterator_never_advances Nat setC10 2 5 rfl

namespace IndexMap

variable {K V : Type} [DecidableEq K]

theorem insert_eq_update (m : IndexMap K V) (k : K) (v : V) :
    insert m k v = update m k v := rfl

theorem I1_update (m : IndexMap K V) (k : K) (v : V) (hI : I1 m) : I1 (update m k v) := by
  cases hidx : Indices.get m.indices (m.hash k) with
  | some idx =>
    rw [update_hit v hidx]
    intro h i hi0
    have hi : Indices.get m.indices h = some i := hi0
    by_cases hcase : i = idx
    · subst hcase
      obtain ⟨b0, hb0, hb0h⟩ := hI _ _ hidx
      obtain ⟨b, hb, hbh⟩ := hI _ _ hi
      have hbb : b = b0 := by
        rw [hb] at hb0
        simpa using hb0
      have hh : h = m.hash k := by
        rw [← hbh, hbb]
        exact hb0h
      refine ⟨{ key := k, value := v }, ?_, ?_⟩
      · show (m.entries.set i (some { key := k, value := v }))[i]? = _
        exact lget_set_self _ _ _ (lget_lt _ _ _ hb)
      · show m.hash_builder k = h
        rw [hh]
        rfl
    · obtain ⟨b, hb, hbh⟩ := hI _ _ hi
      refine ⟨b, ?_, hbh⟩
      show (m.entries.set idx (some { key := k, value := v }))[i]? = some (some b)
      rw [lget_set_ne _ _ _ _ (fun hc => hcase hc.symm)]
      exact hb
  | none =>
    rw [update_miss v hidx]
    intro h i hi0
    have hi : (if h = m.hash k then some m.entries.length else Indices.get m.indices h)
        = some i := hi0
    by_cases hh : h = m.hash k
    · rw [if_pos hh] at hi
      obtain rfl : i = m.entries.length := by simpa using hi.symm
      refine ⟨{ key := k, value := v }, ?_, ?_⟩
      · show (m.entries ++ [some { key := k, value := v }])[m.entries.length]? = _
        exact lget_append_len _ _
      · show m.hash_builder k = h
        rw [hh]
        rfl
    · rw [if_neg hh] at hi
      obtain ⟨b, hb, hbh⟩ := hI _ _ hi
      refine ⟨b, ?_, hbh⟩
      show (m.entries ++ [some { key := k, value := v }])[i]? = some (some b)
      rw [lget_append_left _ _ _ (lget_lt _ _ _ hb)]
      exact hb

theorem I1_without (m : IndexMap K V) (k : K) (hI : I1 m) : I1 (without m k) := by
  cases hidx : Indices.get m.indices (m.hash k) with
  | none =>
    rw [without_miss hidx]
    exact hI
  | some idx =>
    rw [without_hit hidx]
    intro h i hi0
    have hi : (if h = m.hash k then none else Indices.get m.indices h) = some i := hi0
    by_cases hh : h = m.hash k
    · rw [if_pos hh] at hi
      exact Option.noConfusion hi
    · rw [if_neg hh] at hi
      obtain ⟨b, hb, hbh⟩ := hI _ _ hi
      have hne : i ≠ idx := by
        intro hceq
        obtain ⟨b0, hb0, hb0h⟩ := hI _ _ hidx
        rw [hceq] at hb
        rw [hb] at hb0
        have hbb : b0 = b := by simpa using hb0.symm
        apply hh
        rw [← hbh, ← hbb]
        exact hb0h
      refine ⟨b, ?_, hbh⟩
      show (m.entries.set idx none)[i]? = some (some b)
      rw [lget_set_ne _ _ _ _ (fun hc => hne hc.symm)]
      exact hb

end IndexMap

/-- C1 (amended): invariant I1 is preserved by update, without and insert
applied to a state satisfying it. The original claim also asserted
preservation by remove; that fails, since remove physically shifts the
slot sequence without re-indexing the remaining hashes (see the
counterexample). -/
theorem C1_update_without_insert_preserve_I1 (K V : Type) [DecidableEq K]
    (m : IndexMap K V) (k : K) (v : V) (hI : IndexMap.I1 m) :
    IndexMap.I1 (IndexMap.update m k v) ∧ IndexMap.I1 (IndexMap.without m k) ∧
    IndexMap.I1 (IndexMap.insert m k v) := by
  refine ⟨IndexMap.I1_update m k v hI, IndexMap.I1_without m k hI, ?_⟩
  rw [IndexMap.insert_eq_update]
  exact IndexMap.I1_update m k v hI

/-- Two keys 0 and 1 inserted under the identity hash strategy; removing
key 0 shifts slot 1 down while the index still maps hash 1 to position 1. -/
def removeBreaksI1map : IndexMap Nat Nat :=
  IndexMap.insert (IndexMap.insert (IndexMap.with_hasher (fun n => n)) 0 10) 1 11

/-- Counterexample for C1 as stated: the two-key map satisfies I1, but
after remove(0) the index entry for hash 1 points past the end of the
shifted slot sequence, so I1 fails. -/
theorem C1_remove_breaks_I1_cex :
    IndexMap.I1 removeBreaksI1map ∧
    ¬ IndexMap.I1 (IndexMap.remove removeBreaksI1map 0) := by
  constructor
  · intro h i hi0
    have hi : (if h = 1 then some 1 else if h = 0 then some 0 else none) = some i := hi0
    by_cases h1 : h = 1
    · rw [if_pos h1] at hi
      obtain rfl : i = 1 := by simpa using hi.symm
      subst h1
      exact ⟨{ key := 1, value := 11 }, rfl, rfl⟩
    · rw [if_neg h1] at hi
      by_cases h0 : h = 0
      · rw [if_pos h0] at hi
        obtain rfl : i = 0 := by simpa using hi.symm
        subst h0
        exact ⟨{ key := 0, value := 10 }, rfl, rfl⟩
      · rw [if_neg h0] at hi
        exact Option.noConfusion hi
  · intro hI
    obtain ⟨b, hb, hbh⟩ := hI 1 1 rfl
    have hb2 : (none : Option (Option (Bucket Nat Nat))) = some (some b) := hb
    exact Option.noConfusion hb2

/-- The empty map used by the C1 witness. -/
def emptyW1 : IndexMap Nat Nat := IndexMap.with_hasher (fun n => n)

/-- Witness for the amended C1: the empty map satisfies I1, so all three
preserved operations do too. -/
theorem C1_update_without_insert_preserve_I1_witness :
    IndexMap.I1 (IndexMap.update emptyW1 1 2) ∧ IndexMap.I1 (IndexMap.without emptyW1 1) ∧
    IndexMap.I1 (IndexMap.insert emptyW1 1 2) :=
  C1_update_without_insert_preserve_I1 Nat Nat emptyW1 1 2 (by
    intro h i hi
    exact Option.noConfusion hi)

/-- C2 (amended): two maps compare equal exactly when their total slot
counts (len, tombstones included) agree and every live pair of the left
map resolves in the right map to an equal value. The original claim said
live (non-tombstone) size and that equality is unaffected by pending
tombstones; both fail, since eq compares len (see the counterexample). -/
theorem C2_eq_characterization (K V : Type) [DecidableEq K] [DecidableEq V]
    (m1 m2 : IndexMap K V) :
    IndexMap.eq m1 m2 = true ↔
      (IndexMap.len m1 = IndexMap.len m2 ∧
       ∀ kv ∈ IndexMap.iter m1, IndexMap.get m2 kv.1 = some kv.2) := by
  rw [IndexMap.eq, Bool.and_eq_true, beq_iff_eq, List.all_eq_true]
  constructor
  · rintro ⟨h1, h2⟩
    exact ⟨h1, fun kv hkv => by simpa using h2 kv hkv⟩
  · rintro ⟨h1, h2⟩
    refine ⟨h1, fun kv hkv => ?_⟩
    simpa using h2 kv hkv

/-- A one-key map drained by without: live size 0 but one tombstone slot. -/
def tombstonedC2 : IndexMap Nat Nat :=
  IndexMap.without (IndexMap.update (IndexMap.with_hasher (fun n => n)) 0 5) 0

/-- The empty map compared against the drained map in the C2
counterexample. -/
def emptyC2 : IndexMap Nat Nat := IndexMap.with_hasher (fun n => n)

/-- Counterexample for C2 as stated: the drained map and the empty map
have equal live size and vacuously agreeing lookups, yet eq is false in
both directions because len counts the pending tombstone. -/
theorem C2_eq_live_size_cex :
    IndexMap.liveSize tombstonedC2 = IndexMap.liveSize emptyC2 ∧
    (IndexMap.iter tombstonedC2).all
      (fun kv => IndexMap.get emptyC2 kv.1 == some kv.2) = true ∧
    IndexMap.eq tombstonedC2 emptyC2 = false ∧
    IndexMap.eq emptyC2 tombstonedC2 = false :=
  ⟨rfl, rfl, rfl, rfl⟩

/-- The empty map used by the C2 witness. -/
def emptyW2 : IndexMap Nat Nat := IndexMap.with_hasher (fun n => n)

/-- Witness for the amended C2 at concrete maps. -/
theorem C2_eq_characterization_witness :
    IndexMap.eq emptyW2 emptyW2 = true :=
  (C2_eq_characterization Nat Nat emptyW2 emptyW2).mpr
    ⟨rfl, by intro kv hkv; exact absurd hkv (by simp [emptyW2, IndexMap.with_hasher, IndexMap.iter])⟩

/-- C3: tombstone stability: four distinct keys (distinct here meaning
pairwise distinct hash codes, the collision-free regime the spec treats
as normal) inserted in order into an empty map; without on the second key
yields iteration over the first, third and fourth keys in order, and the
pre-removal snapshot still iterates all four keys in insertion order. -/
theorem C3_tombstone_stability (K V : Type) [DecidableEq K]
    (hf : K → HashValue) (k1 k2 k3 k4 : K) (v1 v2 v3 v4 : V)
    (h21 : hf k2 ≠ hf k1) (h31 : hf k3 ≠ hf k1) (h32 : hf k3 ≠ hf k2)
    (h41 : hf k4 ≠ hf k1) (h42 : hf k4 ≠ hf k2) (h43 : hf k4 ≠ hf k3) :
    IndexMap.keysList (IndexMap.without (IndexMap.insert (IndexMap.insert (IndexMap.insert
      (IndexMap.insert (IndexMap.with_hasher hf) k1 v1) k2 v2) k3 v3) k4 v4) k2)
      = [k1, k3, k4] ∧
    IndexMap.keysList (IndexMap.insert (IndexMap.insert (IndexMap.insert
      (IndexMap.insert (IndexMap.with_hasher hf) k1 v1) k2 v2) k3 v3) k4 v4)
      = [k1, k2, k3, k4] := by
  have e1 : IndexMap.insert (IndexMap.with_hasher hf) k1 v1 =
      { indices := Indices.update Indices.empty (hf k1) 0,
        entries := [some { key := k1, value := v1 }],
        hash_builder := hf } :=
    (IndexMap.insert_miss (m := IndexMap.with_hasher hf) (k := k1) v1 rfl).trans rfl
  have e2 : IndexMap.insert
      ({ indices := Indices.update Indices.empty (hf k1) 0,
         entries := [some { key := k1, value := v1 }],
         hash_builder := hf } : IndexMap K V) k2 v2 =
      { indices := Indices.update (Indices.update Indices.empty (hf k1) 0) (hf k2) 1,
        entries := [some { key := k1, value := v1 }, some { key := k2, value := v2 }],
        hash_builder := hf } :=
    (IndexMap.insert_miss v2 (by simp [IndexMap.hash, h21])).trans rfl
  have e3 : IndexMap.insert
      ({ indices := Indices.update (Indices.update Indices.empty (hf k1) 0) (hf k2) 1,
         entries := [some { key := k1, value := v1 }, some { key := k2, value := v2 }],
         hash_builder := hf } : IndexMap K V) k3 v3 =
      { indices := Indices.update (Indices.update (Indices.update Indices.empty
          (hf k1) 0) (hf k2) 1) (hf k3) 2,
        entries := [some { key := k1, value := v1 }, some { key := k2, value := v2 },
          some { key := k3, value := v3 }],
        hash_builder := hf } :=
    (IndexMap.insert_miss v3 (by simp [IndexMap.hash, h31, h32])).trans rfl
  have e4 : IndexMap.insert
      ({ indices := Indices.update (Indices.update (Indices.update Indices.empty
           (hf k1) 0) (hf k2) 1) (hf k3) 2,
         entries := [some { key := k1, value := v1 }, some { key := k2, value := v2 },
           some { key := k3, value := v3 }],
         hash_builder := hf } : IndexMap K V) k4 v4 =
      { indices := Indices.update (Indices.update (Indices.update (Indices.update
          Indices.empty (hf k1) 0) (hf k2) 1) (hf k3) 2) (hf k4) 3,
        entries := [some { key := k1, value := v1 }, some { key := k2, value := v2 },
          some { key := k3, value := v3 }, some { key := k4, value := v4 }],
        hash_builder := hf } :=
    (IndexMap.insert_miss v4 (by simp [IndexMap.hash, h41, h42, h43])).trans rfl
  have hm5 : Indices.get (Indices.update (Indices.update (Indices.update (Indices.update
      Indices.empty (hf k1) 0) (hf k2) 1) (hf k3) 2) (hf k4) 3) (hf k2) = some 1 := by
    simp [Ne.symm h42, Ne.symm h32]
  have e5 : IndexMap.without
      ({ indices := Indices.update (Indices.update (Indices.update (Indices.update
           Indices.empty (hf k1) 0) (hf k2) 1) (hf k3) 2) (hf k4) 3,
         entries := [some { key := k1, value := v1 }, some { key := k2, value := v2 },
           some { key := k3, value := v3 }, some { key := k4, value := v4 }],
         hash_builder := hf } : IndexMap K V) k2 =
      { indices := Indices.without (Indices.update (Indices.update (Indices.update
          (Indices.update Indices.empty (hf k1) 0) (hf k2) 1) (hf k3) 2) (hf k4) 3) (hf k2),
        entries := [some { key := k1, value := v1 }, none,
          some { key := k3, value := v3 }, some { key := k4, value := v4 }],
        hash_builder := hf } :=
    (IndexMap.without_hit
      (m :=
        { indices := Indices.update (Indices.update (Indices.update
            (Indices.update Indices.empty (hf k1) 0) (hf k2) 1) (hf k3) 2) (hf k4) 3,
          entries := [some { key := k1, value := v1 }, some { key := k2, value := v2 },
            some { key := k3, value := v3 }, some { key := k4, value := v4 }],
          hash_builder := hf })
      hm5).trans rfl
  rw [e1, e2, e3, e4, e5]
  constructor
  · simp [IndexMap.keysList, IndexMap.iter]
  · simp [IndexMap.keysList, IndexMap.iter]

/-- Witness for C3 at concrete keys 1..4 with the identity hash. -/
theorem C3_tombstone_stability_witness :
    IndexMap.keysList (IndexMap.without (IndexMap.insert (IndexMap.insert (IndexMap.insert
      (IndexMap.insert (IndexMap.with_hasher (fun n : Nat => n)) 1 10) 2 20) 3 30) 4 40) 2)
      = [1, 3, 4] ∧
    IndexMap.keysList (IndexMap.insert (IndexMap.insert (IndexMap.insert
      (IndexMap.insert (IndexMap.with_hasher (fun n : Nat => n)) 1 10) 2 20) 3 30) 4 40)
      = [1, 2, 3, 4] :=
  C3_tombstone_stability Nat Nat (fun n => n) 1 2 3 4 10 20 30 40
    (by decide) (by decide) (by decide) (by decide) (by decide) (by decide)

theorem keys_filterMap_set {K V : Type} :
    ∀ (l : List (Option (Bucket K V))) (i : Nat) (b b2 : Bucket K V),
      l[i]? = some (some b) → b2.key = b.key →
      (List.filterMap (fun o => o.map (fun bb => (bb.key, bb.value)))
        (l.set i (some b2))).map Prod.fst =
      (List.filterMap (fun o => o.map (fun bb => (bb.key, bb.value))) l).map Prod.fst := by
  intro l
  induction l with
  | nil => intro i b b2 h hk; simp at h
  | cons o t ih =>
    intro i b b2 h hk
    cases i with
    | zero =>
      rw [List.getElem?_cons_zero] at h
      obtain rfl : o = some b := by simpa using h
      rw [List.set_cons_zero]
      simp [hk]
    | succ n =>
      rw [List.getElem?_cons_succ] at h
      rw [List.set_cons_succ]
      cases o with
      | none => simpa using ih n b b2 h hk
      | some bo => simp [ih n b b2 h hk]

/-- C6: order preservation: three keys with pairwise distinct hash codes
functionally updated in order into an empty map iterate as exactly
[k1, k2, k3]; and replacing the value of a contained key leaves the key
sequence (iteration order) unchanged, so iteration keeps first-insertion
order. -/
theorem C6_order_preservation :
    (∀ (K V : Type) [DecidableEq K] (hf : K → HashValue) (k1 k2 k3 : K) (v1 v2 v3 : V),
      hf k2 ≠ hf k1 → hf k3 ≠ hf k1 → hf k3 ≠ hf k2 →
      IndexMap.keysList (IndexMap.update (IndexMap.update (IndexMap.update
        (IndexMap.with_hasher hf) k1 v1) k2 v2) k3 v3) = [k1, k2, k3]) ∧
    (∀ (K V : Type) [DecidableEq K] (m : IndexMap K V) (k : K) (v : V),
      IndexMap.contains_key m k = true →
      IndexMap.keysList (IndexMap.update m k v) = IndexMap.keysList m) := by
  constructor
  · intro K V _ hf k1 k2 k3 v1 v2 v3 h21 h31 h32
    have e1 : IndexMap.update (IndexMap.with_hasher hf) k1 v1 =
        { indices := Indices.update Indices.empty (hf k1) 0,
          entries := [some { key := k1, value := v1 }],
          hash_builder := hf } :=
      (IndexMap.update_miss (m := IndexMap.with_hasher hf) (k := k1) v1 rfl).trans rfl
    have e2 : IndexMap.update
        ({ indices := Indices.update Indices.empty (hf k1) 0,
           entries := [some { key := k1, value := v1 }],
           hash_builder := hf } : IndexMap K V) k2 v2 =
        { indices := Indices.update (Indices.update Indices.empty (hf k1) 0) (hf k2) 1,
          entries := [some { key := k1, value := v1 }, some { key := k2, value := v2 }],
          hash_builder := hf } :=
      (IndexMap.update_miss v2 (by simp [IndexMap.hash, h21])).trans rfl
    have e3 : IndexMap.update
        ({ indices := Indices.update (Indices.update Indices.empty (hf k1) 0) (hf k2) 1,
           entries := [some { key := k1, value := v1 }, some { key := k2, value := v2 }],
           hash_builder := hf } : IndexMap K V) k3 v3 =
        { indices := Indices.update (Indices.update (Indices.update Indices.empty
            (hf k1) 0) (hf k2) 1) (hf k3) 2,
          entries := [some { key := k1, value := v1 }, some { key := k2, value := v2 },
            some { key := k3, value := v3 }],
          hash_builder := hf } :=
      (IndexMap.update_miss v3 (by simp [IndexMap.hash, h31, h32])).trans rfl
    rw [e1, e2, e3]
    simp [IndexMap.keysList, IndexMap.iter]
  · intro K V _ m k v hc
    obtain ⟨idx, b, h1, h2, h3⟩ := IndexMap.contains_key_eq_true hc
    rw [IndexMap.update_hit v h1]
    simp only [IndexMap.keysList, IndexMap.iter]
    exact keys_filterMap_set m.entries idx b { key := k, value := v } h2 h3.symm

/-- A one-key base map for the C6 witness. -/
def mW6 : IndexMap Nat Nat := IndexMap.update (IndexMap.with_hasher (fun n => n)) 1 10

/-- Witness for C6: concrete keys 1, 2, 3 with the identity hash, and an
in-place value replacement on a concrete contained key. -/
theorem C6_order_preservation_witness :
    IndexMap.keysList (IndexMap.update (IndexMap.update (IndexMap.update
      (IndexMap.with_hasher (fun n : Nat => n)) 1 10) 2 20) 3 30) = [1, 2, 3] ∧
    IndexMap.keysList (IndexMap.update mW6 1 99) = IndexMap.keysList mW6 :=
  ⟨C6_order_preservation.1 Nat Nat (fun n => n) 1 2 3 10 20 30
      (by decide) (by decide) (by decide),
   C6_order_preservation.2 Nat Nat mW6 1 99 rfl⟩

end ImblIndexed
